import Mathlib

/-!
Shallow embedding of the `ringbuf` SPSC ring buffer library.

Positions `head` and `tail` are unsigned integers taken modulo `2 * cap`
(the Rust code stores them in `usize`; in every state considered here they
stay below `2 * cap`, far from the machine-word bound, so plain `Nat`
arithmetic coincides with `usize` arithmetic).  A storage cell is
`Option T`: `some x` models an initialized cell holding `x`, `none` models
an uninitialized (`MaybeUninit`) cell.
-/

namespace RingBuf

/-- Result of `Future::poll`: either ready with a value or pending. -/
inductive Poll (α : Type) where
  | ready (value : α)
  | pending
deriving DecidableEq, Repr

/-- Whether a poll result is ready. -/
def Poll.isReady {α : Type} : Poll α → Bool
  | .ready _ => true
  | .pending => false

/-- State of a ring buffer of capacity `cap`: the two positions (modulo
`2 * cap`) and the backing array of `cap` cells. -/
structure RbState (T : Type) where
  cap : Nat
  head : Nat
  tail : Nat
  data : List (Option T)
deriving DecidableEq, Repr

variable {T : Type}

/-- Embeds `RingBufferBase::modulus`: equals `2 * capacity`. -/
def modulus (s : RbState T) : Nat := 2 * s.cap

/-- Embeds `RingBufferBase::occupied_len`:
`(modulus + tail - head) % modulus`. -/
def occupied_len (s : RbState T) : Nat :=
  (modulus s + s.tail - s.head) % modulus s

/-- Embeds `RingBufferBase::vacant_len`:
`(modulus + head - tail - capacity) % modulus`. -/
def vacant_len (s : RbState T) : Nat :=
  (modulus s + s.head - s.tail - s.cap) % modulus s

/-- Embeds `RingBufferBase::is_empty`: `head == tail`. -/
def is_empty (s : RbState T) : Bool := s.head == s.tail

/-- Embeds `RingBufferBase::is_full`: `vacant_len == 0`. -/
def is_full (s : RbState T) : Bool := vacant_len s == 0

/-- A half-open index range `[start, stop)`, as Rust's `Range<usize>`. -/
def rangeLen (r : Nat × Nat) : Nat := r.2 - r.1

/-- Embeds `RingBufferRead::occupied_ranges` from
`src/ring_buffer/traits.rs`. -/
def occupied_ranges (s : RbState T) : (Nat × Nat) × (Nat × Nat) :=
  let head_div := s.head / s.cap
  let head_mod := s.head % s.cap
  let tail_div := s.tail / s.cap
  let tail_mod := s.tail % s.cap
  if head_div == tail_div then
    ((head_mod, tail_mod), (0, 0))
  else
    ((head_mod, s.cap), (0, tail_mod))

/-- Embeds `RingBufferWrite::vacant_ranges` from
`src/ring_buffer/traits.rs`. -/
def vacant_ranges (s : RbState T) : (Nat × Nat) × (Nat × Nat) :=
  let head_div := s.head / s.cap
  let head_mod := s.head % s.cap
  let tail_div := s.tail / s.cap
  let tail_mod := s.tail % s.cap
  if head_div == tail_div then
    ((tail_mod, s.cap), (0, head_mod))
  else
    ((tail_mod, head_mod), (0, 0))

/-- Embeds `RingBufferWrite::advance_tail`:
`tail := (tail + count) % modulus`. -/
def advance_tail (s : RbState T) (count : Nat) : RbState T :=
  { s with tail := (s.tail + count) % modulus s }

/-- Embeds `RingBufferRead::advance_head`:
`head := (head + count) % modulus`. -/
def advance_head (s : RbState T) (count : Nat) : RbState T :=
  { s with head := (s.head + count) % modulus s }

/-- Writes the elements of `elems` into consecutive cells starting at
index `start` (the in-order initialization of a vacant slice). -/
def writeCells (d : List (Option T)) (start : Nat) (elems : List T) : List (Option T) :=
  match elems with
  | [] => d
  | x :: xs => writeCells (d.set start (some x)) (start + 1) xs

/-- Embeds `LocalProducer::push` from `src/producer/local.rs`:
if the buffer is not full, write the item into the first cell of the first
vacant slice and advance `tail` by one; otherwise return the item back
(`none` result models `Ok(())`, `some item` models `Err(item)`). -/
def push (s : RbState T) (elem : T) : RbState T × Option T :=
  if !is_full s then
    let r0 := (vacant_ranges s).1
    (advance_tail { s with data := s.data.set r0.1 (some elem) } 1, none)
  else
    (s, some elem)

/-- Embeds `LocalProducer::push_slice` from `src/producer/local.rs`:
copies items into the two vacant slices (first the left one, then the
right one), advances `tail` by the number copied, returns that count. -/
def push_slice (s : RbState T) (elems : List T) : RbState T × Nat :=
  let left := (vacant_ranges s).1
  let right := (vacant_ranges s).2
  let llen := rangeLen left
  let rlen := rangeLen right
  if elems.length < llen then
    (advance_tail { s with data := writeCells s.data left.1 elems } elems.length,
      elems.length)
  else
    let rest := elems.drop llen
    let d1 := writeCells s.data left.1 (elems.take llen)
    if rest.length < rlen then
      (advance_tail { s with data := writeCells d1 right.1 rest } (llen + rest.length),
        llen + rest.length)
    else
      (advance_tail { s with data := writeCells d1 right.1 (rest.take rlen) } (llen + rlen),
        llen + rlen)

/-- Embeds `LocalProducer::push_iter` from `src/producer/local.rs`: drains
the iterator (modelled as a list) into the chained vacant slices until
either the iterator ends or the vacant cells are exhausted; advances
`tail` by the count and returns it. -/
def push_iter (s : RbState T) (iter : List T) : RbState T × Nat :=
  let left := (vacant_ranges s).1
  let right := (vacant_ranges s).2
  let llen := rangeLen left
  let rlen := rangeLen right
  let count := min iter.length (llen + rlen)
  let d1 := writeCells s.data left.1 (iter.take (min count llen))
  let d2 := writeCells d1 right.1 ((iter.drop llen).take (count - llen))
  (advance_tail { s with data := d2 } count, count)

/-- Modelled from the spec: the consumer's `try_pop` (the consumer
sources are not part of the provided files; section 4.2 of the spec makes
it symmetric to `try_push`): if the buffer is non-empty, move the item
out of the first cell of the first occupied slice and advance `head` by
one, returning `some item`; otherwise return `none` and leave the state
unchanged. -/
def try_pop (s : RbState T) : RbState T × Option T :=
  if !is_empty s then
    let r0 := (occupied_ranges s).1
    let item := s.data.getD r0.1 none
    (advance_head { s with data := s.data.set r0.1 none } 1, item)
  else
    (s, none)

/-- Embeds `<LocalProducer<u8> as Write>::write` from
`src/producer/local.rs`: `n := push_slice(buffer)`; if `n == 0` and the
buffer is non-empty the result is `Err(WouldBlock)` (modelled as
`Except.error ()`), otherwise `Ok(n)`. -/
def write (s : RbState T) (buffer : List T) : RbState T × Except Unit Nat :=
  let p := push_slice s buffer
  if p.2 == 0 && !buffer.isEmpty then
    (p.1, Except.error ())
  else
    (p.1, Except.ok p.2)

/-- Initial ring buffer of capacity `cap`: both positions zero, all cells
uninitialized. -/
def initRb (T : Type) (cap : Nat) : RbState T :=
  ⟨cap, 0, 0, List.replicate cap none⟩

/-- A single-threaded operation: a push of an item or a pop. -/
inductive Op (T : Type) where
  | push (x : T)
  | pop
deriving DecidableEq, Repr

/-- One step of the single-threaded state machine (results discarded). -/
def step (s : RbState T) : Op T → RbState T
  | .push x => (push s x).1
  | .pop => (try_pop s).1

/-- Runs a sequence of operations from the initial state. -/
def run (T : Type) (cap : Nat) (ops : List (Op T)) : RbState T :=
  ops.foldl step (initRb T cap)

/-- The index invariant: positive capacity, both positions below the
modulus, and occupancy at most the capacity. -/
def Inv (s : RbState T) : Prop :=
  0 < s.cap ∧ s.head < 2 * s.cap ∧ s.tail < 2 * s.cap ∧ occupied_len s ≤ s.cap

/-- Reduction of `% (2 * N)` to a case split, for arguments below `4 * N`
(every position expression in the model stays in that window). -/
theorem mod_two_cap (N a : Nat) (_hN : 0 < N) (ha : a < 4 * N) :
    a % (2 * N) = if 2 * N ≤ a then a - 2 * N else a := by
  split
  · rw [Nat.mod_eq_sub_mod (by omega)]
    exact Nat.mod_eq_of_lt (by omega)
  · exact Nat.mod_eq_of_lt (by omega)

/-- Under the index invariant, occupied and vacant lengths add up to the
capacity (equivalently, the code's `vacant_len` formula computes
`N - occupied_len`). -/
theorem occ_add_vac (s : RbState T) (h1 : 0 < s.cap) (h2 : s.head < 2 * s.cap)
    (h3 : s.tail < 2 * s.cap) (h4 : occupied_len s ≤ s.cap) :
    occupied_len s + vacant_len s = s.cap := by
  unfold occupied_len vacant_len modulus at *
  rw [mod_two_cap s.cap _ h1 (by omega)] at h4 ⊢
  rw [mod_two_cap s.cap _ h1 (by omega)]
  split_ifs at * <;> omega

/-- `push` preserves the index invariant. -/
theorem inv_push (s : RbState T) (x : T) (h : Inv s) : Inv (push s x).1 := by
  obtain ⟨h1, h2, h3, h4⟩ := h
  have hocc : occupied_len s = (2 * s.cap + s.tail - s.head) % (2 * s.cap) := rfl
  rw [mod_two_cap s.cap _ h1 (by omega)] at hocc
  unfold push
  split
  · have hnf : vacant_len s ≠ 0 := by
      rename_i hc
      simpa [is_full] using hc
    have hvac : vacant_len s = (2 * s.cap + s.head - s.tail - s.cap) % (2 * s.cap) := rfl
    rw [mod_two_cap s.cap _ h1 (by omega)] at hvac
    refine ⟨h1, h2, ?_, ?_⟩
    · show (s.tail + 1) % (2 * s.cap) < 2 * s.cap
      exact Nat.mod_lt _ (by omega)
    · show (2 * s.cap + (s.tail + 1) % (2 * s.cap) - s.head) % (2 * s.cap) ≤ s.cap
      rw [mod_two_cap s.cap (s.tail + 1) h1 (by omega)]
      rw [mod_two_cap s.cap _ h1 (by split_ifs <;> omega)]
      split_ifs at * <;> omega
  · exact ⟨h1, h2, h3, h4⟩

/-- `try_pop` preserves the index invariant. -/
theorem inv_try_pop (s : RbState T) (h : Inv s) : Inv (try_pop s).1 := by
  obtain ⟨h1, h2, h3, h4⟩ := h
  have hocc : occupied_len s = (2 * s.cap + s.tail - s.head) % (2 * s.cap) := rfl
  rw [mod_two_cap s.cap _ h1 (by omega)] at hocc
  unfold try_pop
  split
  · have hne : s.head ≠ s.tail := by
      rename_i hc
      simpa [is_empty] using hc
    refine ⟨h1, ?_, h3, ?_⟩
    · show (s.head + 1) % (2 * s.cap) < 2 * s.cap
      exact Nat.mod_lt _ (by omega)
    · show (2 * s.cap + s.tail - (s.head + 1) % (2 * s.cap)) % (2 * s.cap) ≤ s.cap
      rw [mod_two_cap s.cap (s.head + 1) h1 (by omega)]
      rw [mod_two_cap s.cap _ h1 (by split_ifs <;> omega)]
      split_ifs at * <;> omega
  · exact ⟨h1, h2, h3, h4⟩

/-- The initial state satisfies the index invariant. -/
theorem inv_init (cap : Nat) (h : 0 < cap) : Inv (initRb T cap) := by
  refine ⟨h, ?_, ?_, ?_⟩
  · show (0 : Nat) < 2 * cap
    omega
  · show (0 : Nat) < 2 * cap
    omega
  · show (2 * cap + 0 - 0) % (2 * cap) ≤ cap
    simp

/-- Every state reachable by a sequence of operations satisfies the index
invariant. -/
theorem inv_run (cap : Nat) (h : 0 < cap) (ops : List (Op T)) :
    Inv (run T cap ops) := by
  unfold run
  have base := inv_init (T := T) cap h
  generalize initRb T cap = s at base ⊢
  induction ops generalizing s with
  | nil => exact base
  | cons op rest ih =>
    cases op with
    | push x => exact ih _ (inv_push s x base)
    | pop => exact ih _ (inv_try_pop s base)

/-- The operations preserve the capacity field. -/
theorem step_cap (s : RbState T) (op : Op T) : (step s op).cap = s.cap := by
  cases op with
  | push x =>
    show (push s x).1.cap = s.cap
    unfold push
    split <;> rfl
  | pop =>
    show (try_pop s).1.cap = s.cap
    unfold try_pop
    split <;> rfl

/-- The capacity of a run state is the construction capacity. -/
theorem run_cap (cap : Nat) (ops : List (Op T)) : (run T cap ops).cap = cap := by
  unfold run
  have base : (initRb T cap).cap = cap := rfl
  generalize initRb T cap = s at base ⊢
  induction ops generalizing s with
  | nil => exact base
  | cons op rest ih => exact ih _ ((step_cap s op).trans base)

/-- The occupied-range table exactly as written in section 4.1 of the
spec: rows indexed by whether `read div N` equals `write div N`. -/
def specOccupiedTable (cap r w : Nat) : (Nat × Nat) × (Nat × Nat) :=
  let rm := r % cap
  let wm := w % cap
  if r / cap == w / cap then ((rm, wm), (0, 0)) else ((rm, cap), (0, wm))

/-- The vacant-range table exactly as written in section 4.1 of the
spec. -/
def specVacantTable (cap r w : Nat) : (Nat × Nat) × (Nat × Nat) :=
  let rm := r % cap
  let wm := w % cap
  if r / cap == w / cap then ((wm, cap), (0, rm)) else ((wm, rm), (0, 0))

/-- C1: for every head and tail position in `[0, 2N)` with
`occupied_len <= N`, `occupied_ranges` and `vacant_ranges` return exactly
the slice pairs of the spec's range-decomposition table. -/
theorem occupied_vacant_ranges_match_spec_table (s : RbState T)
    (_h2 : s.head < 2 * s.cap) (_h3 : s.tail < 2 * s.cap)
    (_h4 : occupied_len s ≤ s.cap) :
    occupied_ranges s = specOccupiedTable s.cap s.head s.tail ∧
    vacant_ranges s = specVacantTable s.cap s.head s.tail :=
  ⟨rfl, rfl⟩

/-- Witness for the range-table theorem at a concrete wrapped state. -/
theorem occupied_vacant_ranges_match_spec_table_witness :
    (2 : Nat) < 2 * 3 ∧ (4 : Nat) < 2 * 3 ∧
      occupied_len (⟨3, 2, 4, [some 1, some 2, some 3]⟩ : RbState Nat) ≤ 3 ∧
      (occupied_ranges (⟨3, 2, 4, [some 1, some 2, some 3]⟩ : RbState Nat) =
          specOccupiedTable 3 2 4 ∧
        vacant_ranges (⟨3, 2, 4, [some 1, some 2, some 3]⟩ : RbState Nat) =
          specVacantTable 3 2 4) :=
  ⟨by decide, by decide, by decide,
    occupied_vacant_ranges_match_spec_table _ (by decide) (by decide) (by decide)⟩

/-- C2: after every sequence of `try_push`/`try_pop` operations starting
from the initial state, `occupied_len + vacant_len` equals the capacity;
equivalently the code's `vacant_len` formula computes
`capacity - occupied_len` in every reachable state. -/
theorem occupied_plus_vacant_eq_capacity (cap : Nat) (hcap : 0 < cap)
    (ops : List (Op T)) :
    occupied_len (run T cap ops) + vacant_len (run T cap ops) = cap ∧
    vacant_len (run T cap ops) = cap - occupied_len (run T cap ops) := by
  obtain ⟨h1, h2, h3, h4⟩ := inv_run cap hcap ops
  have e := occ_add_vac _ h1 h2 h3 h4
  rw [run_cap cap ops] at e
  omega

/-- Witness for the occupancy invariant on a concrete operation
sequence. -/
theorem occupied_plus_vacant_eq_capacity_witness :
    (0 : Nat) < 2 ∧
      (occupied_len (run Nat 2 [Op.push 5, Op.push 6, Op.pop, Op.push 7]) +
            vacant_len (run Nat 2 [Op.push 5, Op.push 6, Op.pop, Op.push 7]) = 2 ∧
        vacant_len (run Nat 2 [Op.push 5, Op.push 6, Op.pop, Op.push 7]) =
          2 - occupied_len (run Nat 2 [Op.push 5, Op.push 6, Op.pop, Op.push 7])) :=
  ⟨by decide, occupied_plus_vacant_eq_capacity 2 (by decide) _⟩

/-- The first vacant range starts at `tail % capacity` in both branches
of `vacant_ranges`. -/
theorem vacant_first_start (s : RbState T) :
    (vacant_ranges s).1.1 = s.tail % s.cap := by
  simp only [vacant_ranges]
  split <;> rfl

/-- C3: if `vacant_len > 0`, `push` writes the item into the first
vacant cell (array offset `tail % capacity`), advances `tail` by exactly
one modulo `2N`, and returns `Ok(())`; otherwise it returns `Err(item)`
and leaves the whole state unchanged. -/
theorem push_spec (s : RbState T) (x : T) :
    (0 < vacant_len s →
      push s x =
        ({ s with
            data := s.data.set (s.tail % s.cap) (some x),
            tail := (s.tail + 1) % (2 * s.cap) }, none)) ∧
    (vacant_len s = 0 → push s x = (s, some x)) := by
  constructor
  · intro h
    have hfull : is_full s = false := by
      simp only [is_full, beq_eq_false_iff_ne]
      omega
    simp only [push, hfull, Bool.not_false, if_true, vacant_first_start]
    rfl
  · intro h
    have hfull : is_full s = true := by
      simp [is_full, h]
    simp [push, hfull]

/-- Witness for the push theorem: a successful push and a failing push on
concrete states. -/
theorem push_spec_witness :
    (0 < vacant_len (⟨2, 0, 1, [some 9, none]⟩ : RbState Nat) ∧
      push (⟨2, 0, 1, [some 9, none]⟩ : RbState Nat) 7 =
        (⟨2, 0, 2, [some 9, some 7]⟩, none)) ∧
    (vacant_len (⟨1, 0, 1, [some 4]⟩ : RbState Nat) = 0 ∧
      push (⟨1, 0, 1, [some 4]⟩ : RbState Nat) 7 = (⟨1, 0, 1, [some 4]⟩, some 7)) :=
  ⟨⟨by decide, by
      have := (push_spec (⟨2, 0, 1, [some 9, none]⟩ : RbState Nat) 7).1 (by decide)
      simpa using this⟩,
    ⟨by decide, (push_spec (⟨1, 0, 1, [some 4]⟩ : RbState Nat) 7).2 (by decide)⟩⟩

/-- Under the index invariant, the two vacant ranges together cover
exactly `vacant_len` cells. -/
theorem vacant_ranges_len (s : RbState T) (h1 : 0 < s.cap)
    (h2 : s.head < 2 * s.cap) (h3 : s.tail < 2 * s.cap)
    (h4 : occupied_len s ≤ s.cap) :
    rangeLen (vacant_ranges s).1 + rangeLen (vacant_ranges s).2 = vacant_len s := by
  have hocc : occupied_len s = (2 * s.cap + s.tail - s.head) % (2 * s.cap) := rfl
  rw [mod_two_cap s.cap _ h1 (by omega)] at hocc
  have hvac : vacant_len s = (2 * s.cap + s.head - s.tail - s.cap) % (2 * s.cap) := rfl
  rw [mod_two_cap s.cap _ h1 (by omega)] at hvac
  have hh := Nat.div_add_mod s.head s.cap
  have ht := Nat.div_add_mod s.tail s.cap
  have hhm : s.head % s.cap < s.cap := Nat.mod_lt _ h1
  have htm : s.tail % s.cap < s.cap := Nat.mod_lt _ h1
  have hhd : s.head / s.cap < 2 := (Nat.div_lt_iff_lt_mul h1).mpr (by omega)
  have htd : s.tail / s.cap < 2 := (Nat.div_lt_iff_lt_mul h1).mpr (by omega)
  have hhd01 : s.head / s.cap = 0 ∨ s.head / s.cap = 1 :=
    Nat.le_one_iff_eq_zero_or_eq_one.mp (Nat.le_of_lt_succ hhd)
  have htd01 : s.tail / s.cap = 0 ∨ s.tail / s.cap = 1 :=
    Nat.le_one_iff_eq_zero_or_eq_one.mp (Nat.le_of_lt_succ htd)
  rcases hhd01 with hd | hd <;> rcases htd01 with td | td
  all_goals rw [hd] at hh
  all_goals rw [td] at ht
  all_goals simp only [vacant_ranges, rangeLen, hd, td]
  all_goals norm_num
  all_goals split_ifs at hocc hvac <;> omega

/-- The count returned by `push_slice` equals
`min (slice length) vacant_len`. -/
theorem push_slice_count (s : RbState T) (elems : List T) (h1 : 0 < s.cap)
    (h2 : s.head < 2 * s.cap) (h3 : s.tail < 2 * s.cap)
    (h4 : occupied_len s ≤ s.cap) :
    (push_slice s elems).2 = min elems.length (vacant_len s) := by
  have htot := vacant_ranges_len s h1 h2 h3 h4
  unfold push_slice
  simp only [List.length_drop]
  split
  · simpa using by omega
  · split <;> simpa using by omega

/-- C9: the byte-stream `write` fails with `WouldBlock` exactly when no
item was pushed and the input is non-empty (equivalently the buffer was
full and the caller asked for non-zero bytes); otherwise it returns the
number of items actually pushed, which is `min (buffer length)
(vacant_len at entry)`, and a zero count is only returned for an empty
input. -/
theorem write_spec (s : RbState T) (buffer : List T) (h1 : 0 < s.cap)
    (h2 : s.head < 2 * s.cap) (h3 : s.tail < 2 * s.cap)
    (h4 : occupied_len s ≤ s.cap) :
    ((write s buffer).2 = Except.error () ↔
      (push_slice s buffer).2 = 0 ∧ buffer ≠ []) ∧
    ((write s buffer).2 = Except.error () ↔
      vacant_len s = 0 ∧ buffer ≠ []) ∧
    (∀ n, (write s buffer).2 = Except.ok n →
      n = min buffer.length (vacant_len s)) ∧
    ((write s buffer).2 = Except.ok 0 → buffer = []) := by
  have hcnt := push_slice_count s buffer h1 h2 h3 h4
  have hlen0 : buffer.length = 0 ↔ buffer = [] := List.length_eq_zero
  have weq : write s buffer =
      if (push_slice s buffer).2 == 0 && !buffer.isEmpty then
        ((push_slice s buffer).1, Except.error ())
      else ((push_slice s buffer).1, Except.ok (push_slice s buffer).2) := rfl
  by_cases hc : (push_slice s buffer).2 = 0 ∧ buffer ≠ []
  · have hcond : ((push_slice s buffer).2 == 0 && !buffer.isEmpty) = true := by
      rcases hc with ⟨hz, hne⟩
      simp [hz, hne]
    rw [weq, if_pos hcond]
    refine ⟨⟨fun _ => hc, fun _ => rfl⟩, ⟨fun _ => ⟨?_, hc.2⟩, fun _ => rfl⟩,
      by simp, by simp⟩
    have hbl : buffer.length ≠ 0 := fun h => hc.2 (hlen0.mp h)
    omega
  · have hcond : ((push_slice s buffer).2 == 0 && !buffer.isEmpty) = false := by
      rw [not_and_or] at hc
      rcases hc with hz | hne
      · simp [hz]
      · push_neg at hne
        simp [hne]
    have hcond2 : ¬(((push_slice s buffer).2 == 0 && !buffer.isEmpty) = true) := by
      simp [hcond]
    rw [weq, if_neg hcond2]
    refine ⟨⟨fun h => absurd h (by simp), fun h => absurd h hc⟩,
      ⟨fun h => absurd h (by simp), ?_⟩, ?_, ?_⟩
    · intro h
      have hz : (push_slice s buffer).2 = 0 := by
        rw [hcnt, h.1]
        simp
      exact absurd ⟨hz, h.2⟩ hc
    · intro n hn
      simp only [Except.ok.injEq] at hn
      omega
    · intro hn
      simp only [Except.ok.injEq] at hn
      by_contra hb
      exact hc ⟨hn, hb⟩

/-- Witness for the write theorem at a concrete partially-filled
buffer. -/
theorem write_spec_witness :
    (0 : Nat) < 2 ∧ (0 : Nat) < 2 * 2 ∧ (1 : Nat) < 2 * 2 ∧
      occupied_len (⟨2, 0, 1, [some 9, none]⟩ : RbState Nat) ≤ 2 ∧
      (((write (⟨2, 0, 1, [some 9, none]⟩ : RbState Nat) [3, 4]).2 = Except.error () ↔
          (push_slice (⟨2, 0, 1, [some 9, none]⟩ : RbState Nat) [3, 4]).2 = 0 ∧
            ([3, 4] : List Nat) ≠ []) ∧
        ((write (⟨2, 0, 1, [some 9, none]⟩ : RbState Nat) [3, 4]).2 = Except.error () ↔
          vacant_len (⟨2, 0, 1, [some 9, none]⟩ : RbState Nat) = 0 ∧
            ([3, 4] : List Nat) ≠ []) ∧
        (∀ n, (write (⟨2, 0, 1, [some 9, none]⟩ : RbState Nat) [3, 4]).2 = Except.ok n →
          n = min ([3, 4] : List Nat).length
            (vacant_len (⟨2, 0, 1, [some 9, none]⟩ : RbState Nat))) ∧
        ((write (⟨2, 0, 1, [some 9, none]⟩ : RbState Nat) [3, 4]).2 = Except.ok 0 →
          ([3, 4] : List Nat) = [])) :=
  ⟨by decide, by decide, by decide, by decide,
    write_spec _ _ (by decide) (by decide) (by decide) (by decide)⟩

/-!
Async adapter (`async/src/producer.rs`, `async/src/consumer.rs`).

A poll is modelled as a pure function of the owner's buffer state, the
`closed` flag observed in that poll, and the future's own fields.  Waker
registration has no effect on the values computed, so it is not part of
the state.  An `Option` result models a Rust `assert!`: `none` is a
panic.
-/

/-- Embeds `PushFuture::poll`: after registering the waker the item is
taken; if `closed` is set the future resolves `Err(item)` immediately,
otherwise `try_push` is attempted — `Ok(())` resolves ready, failure
restores the item and returns pending.  Returns the poll result, the
updated buffer and the future's item slot after the poll. -/
def pollPush (s : RbState T) (closed : Bool) (item : T) :
    Poll (Except T Unit) × RbState T × Option T :=
  if closed then
    (Poll.ready (Except.error item), s, none)
  else
    match push s item with
    | (s1, some it) => (Poll.pending, s1, some it)
    | (s1, none) => (Poll.ready (Except.ok ()), s1, none)

/-- Embeds `PushSliceFuture::poll`: the slice is taken; if `closed` is
set the future resolves `Err(count)`; otherwise `push_slice` is run, the
written prefix is dropped, and the future resolves `Ok(())` when the
remainder is empty, else pends with the remainder.  Returns the result,
the updated buffer, the slice slot and the count after the poll. -/
def pollPushSlice (s : RbState T) (closed : Bool) (slice : List T) (count : Nat) :
    Poll (Except Nat Unit) × RbState T × Option (List T) × Nat :=
  if closed then
    (Poll.ready (Except.error count), s, none, count)
  else
    let p := push_slice s slice
    let rest := slice.drop p.2
    if rest.isEmpty then
      (Poll.ready (Except.ok ()), p.1, none, count + p.2)
    else
      (Poll.pending, p.1, some rest, count + p.2)

/-- Embeds `PushIterFuture::poll`: the iterator (a list here) is taken;
if `closed` is set the future resolves `false`; otherwise `push_iter`
drains it and the future resolves `true` when the iterator is exhausted,
else pends with the remainder. -/
def pollPushIter (s : RbState T) (closed : Bool) (iter : List T) :
    Poll Bool × RbState T × Option (List T) :=
  if closed then
    (Poll.ready false, s, none)
  else
    let p := push_iter s iter
    let rest := iter.drop p.2
    if rest.isEmpty then
      (Poll.ready true, p.1, none)
    else
      (Poll.pending, p.1, some rest)

/-- Embeds `PopFuture::poll`: asserts the future is not done (modelled
as `none` on violation), registers the waker, loads `closed`, then
attempts `try_pop`; an item resolves `Ready(Some(item))` and sets
`done`; on an empty buffer the future resolves `Ready(None)` when
`closed` is set and pends otherwise, leaving `done` unset. -/
def pollPop (s : RbState T) (closed : Bool) (done : Bool) :
    Option (Poll (Option T) × RbState T × Bool) :=
  if done then
    none
  else
    match try_pop s with
    | (s1, some item) => some (Poll.ready (some item), s1, true)
    | (_, none) =>
      if closed then
        some (Poll.ready none, s, false)
      else
        some (Poll.pending, s, false)

/-- Embeds `WaitVacantFuture::poll`: asserts not done, registers the
waker, loads `closed`, and resolves ready exactly when `count ≤
vacant_len` or `closed`; the `done` flag is returned unchanged (the
source never writes it). -/
def pollWaitVacant (s : RbState T) (closed : Bool) (count : Nat) (done : Bool) :
    Option (Poll Unit × Bool) :=
  if done then
    none
  else if count ≤ vacant_len s || closed then
    some (Poll.ready (), done)
  else
    some (Poll.pending, done)

/-- Embeds `WaitOccupiedFuture::poll`, symmetric to `pollWaitVacant`. -/
def pollWaitOccupied (s : RbState T) (closed : Bool) (count : Nat) (done : Bool) :
    Option (Poll Unit × Bool) :=
  if done then
    none
  else if count ≤ occupied_len s || closed then
    some (Poll.ready (), done)
  else
    some (Poll.pending, done)

/-- Embeds `FusedFuture::is_terminated` for `PushFuture`:
`item.is_none()`. -/
def pushTerminated (slot : Option T) : Bool := slot.isNone

/-- Embeds `FusedFuture::is_terminated` for `PushSliceFuture`:
`slice.is_none()`. -/
def pushSliceTerminated (slot : Option (List T)) : Bool := slot.isNone

/-- Embeds `FusedFuture::is_terminated` for `PushIterFuture`:
`iter.is_none() || owner.is_closed()`. -/
def pushIterTerminated (slot : Option (List T)) (closed : Bool) : Bool :=
  slot.isNone || closed

/-- Embeds `FusedFuture::is_terminated` for `PopFuture`:
`done || owner.is_closed()`. -/
def popTerminated (done closed : Bool) : Bool := done || closed

/-- Embeds `FusedFuture::is_terminated` for `WaitVacantFuture` and
`WaitOccupiedFuture`: the `done` flag alone. -/
def waitTerminated (done : Bool) : Bool := done

/-- Embeds `AsyncProducer::wait_vacant` and
`AsyncConsumer::wait_occupied` construction: `debug_assert!(count <=
capacity)`, so construction panics (`none`) only when debug assertions
are compiled in; otherwise the future starts with `done = false`. -/
def waitFutureNew (debugAssertions : Bool) (cap count : Nat) : Option (Nat × Bool) :=
  if debugAssertions && !(count ≤ cap : Bool) then
    none
  else
    some (count, false)

/-- The first occupied range starts at `head % capacity` in both
branches of `occupied_ranges`. -/
theorem occupied_first_start (s : RbState T) :
    (occupied_ranges s).1.1 = s.head % s.cap := by
  simp only [occupied_ranges]
  split <;> rfl

/-- C4 counterexample: on an empty capacity-1 buffer with `closed` set,
the synchronous push attempt would succeed, yet `PushFuture::poll`
resolves `Ready(Err(item))` — the claim's "success resolves even if
closed is set" is violated because the code short-circuits on `closed`
before attempting the operation. -/
theorem pollPush_closed_ignores_successful_attempt :
    (push (initRb Nat 1) 42).2 = none ∧
    (pollPush (initRb Nat 1) true 42).1 = Poll.ready (Except.error 42) :=
  ⟨rfl, rfl⟩

/-- C4 amended: every poll of a push-side future registers the waker and
loads `closed`; if `closed` is set it resolves the failure result
immediately, without attempting the operation; otherwise it attempts the
synchronous fast path and resolves `Ready(success)` exactly when the
attempt fully succeeds, pending otherwise. -/
theorem pushFuture_polls_close_first (s : RbState T) (closed : Bool) (item : T)
    (slice iter : List T) (count : Nat) :
    (closed = true →
      (pollPush s closed item).1 = Poll.ready (Except.error item) ∧
      (pollPushSlice s closed slice count).1 = Poll.ready (Except.error count) ∧
      (pollPushIter s closed iter).1 = Poll.ready false) ∧
    (closed = false →
      ((pollPush s closed item).1 = Poll.ready (Except.ok ()) ↔ (push s item).2 = none) ∧
      ((push s item).2 ≠ none → (pollPush s closed item).1 = Poll.pending) ∧
      ((pollPushSlice s closed slice count).1 = Poll.ready (Except.ok ()) ↔
        (slice.drop (push_slice s slice).2).isEmpty = true) ∧
      ((slice.drop (push_slice s slice).2).isEmpty = false →
        (pollPushSlice s closed slice count).1 = Poll.pending) ∧
      ((pollPushIter s closed iter).1 = Poll.ready true ↔
        (iter.drop (push_iter s iter).2).isEmpty = true) ∧
      ((iter.drop (push_iter s iter).2).isEmpty = false →
        (pollPushIter s closed iter).1 = Poll.pending)) := by
  constructor
  · intro hc
    subst hc
    exact ⟨rfl, rfl, rfl⟩
  · intro hc
    subst hc
    refine ⟨?_, ?_, ?_, ?_, ?_, ?_⟩
    · rcases hp : push s item with ⟨s1, it⟩
      cases it <;> simp [pollPush, hp]
    · intro h
      rcases hp : push s item with ⟨s1, it⟩
      cases it
      · rw [hp] at h
        simp at h
      · simp [pollPush, hp]
    · rcases he : (slice.drop (push_slice s slice).2).isEmpty <;>
        simp [pollPushSlice, he]
    · intro he
      simp [pollPushSlice, he]
    · rcases he : (iter.drop (push_iter s iter).2).isEmpty <;>
        simp [pollPushIter, he]
    · intro he
      simp [pollPushIter, he]

/-- Witness for the push-future decision theorem: both hypotheses
discharged on concrete inputs. -/
theorem pushFuture_polls_close_first_witness :
    (pollPush (initRb Nat 1) true 5).1 = Poll.ready (Except.error 5) ∧
    ((pollPush (initRb Nat 1) false 5).1 = Poll.ready (Except.ok ()) ↔
      (push (initRb Nat 1) 5).2 = none) :=
  ⟨((pushFuture_polls_close_first (initRb Nat 1) true 5 [1] [2] 0).1 rfl).1,
    ((pushFuture_polls_close_first (initRb Nat 1) false 5 [1] [2] 0).2 rfl).1⟩

/-- C5: on a buffer whose producer has closed, the pop future resolves
`Ready(Some(item))` with the oldest item (the cell at `head % capacity`)
whenever the buffer is non-empty, and resolves `Ready(None)` exactly
when the buffer is empty and `closed` is set (assuming the cell-state
invariant that a non-empty buffer has its head cell initialized). -/
theorem pollPop_drains_before_none (s : RbState T) :
    (∀ x : T, is_empty s = false → s.data.getD (s.head % s.cap) none = some x →
      pollPop s true false = some (Poll.ready (some x), (try_pop s).1, true)) ∧
    (∀ closed : Bool,
      (is_empty s = false → (s.data.getD (s.head % s.cap) none).isSome = true) →
      ((pollPop s closed false).map (fun r => r.1) =
          some (Poll.ready (none : Option T)) ↔
        is_empty s = true ∧ closed = true)) := by
  constructor
  · intro x hne hcell
    have hitem : (try_pop s).2 = some x := by
      unfold try_pop
      rw [hne]
      simpa [occupied_first_start] using hcell
    unfold pollPop
    rcases hp : try_pop s with ⟨s1, it⟩
    rw [hp] at hitem
    simp at hitem
    subst hitem
    simp [hp]
  · intro closed hcell
    unfold pollPop
    rcases hp : try_pop s with ⟨s1, it⟩
    rcases hemp : is_empty s with _ | _
    · have hcellval := hcell hemp
      have hitem : (try_pop s).2 = s.data.getD (s.head % s.cap) none := by
        unfold try_pop
        rw [hemp]
        simp [occupied_first_start]
      rw [hp] at hitem
      rcases it with _ | y
      · exfalso
        rw [← hitem] at hcellval
        simp at hcellval
      · simp [hemp]
    · have hitem : (try_pop s).2 = none := by
        unfold try_pop
        rw [hemp]
        simp
      rw [hp] at hitem
      simp only at hitem
      subst hitem
      rcases closed with _ | _ <;> simp

/-- Witness for the pop-future theorem on a concrete closed non-empty
buffer and a concrete closed empty buffer. -/
theorem pollPop_drains_before_none_witness :
    pollPop (⟨2, 0, 1, [some 9, none]⟩ : RbState Nat) true false =
      some (Poll.ready (some 9), (try_pop (⟨2, 0, 1, [some 9, none]⟩ : RbState Nat)).1, true) ∧
    ((pollPop (initRb Nat 2) true false).map (fun r => r.1) =
        some (Poll.ready (none : Option Nat)) ↔
      is_empty (initRb Nat 2) = true ∧ true = true) :=
  ⟨(pollPop_drains_before_none (⟨2, 0, 1, [some 9, none]⟩ : RbState Nat)).1 9
      (by decide) (by decide),
    (pollPop_drains_before_none (initRb Nat 2)).2 true (by decide)⟩

/-- C10: the pop future's `done` flag is set only on the
`Ready(Some(item))` path; after `Ready(None)` the flag stays unset, so a
re-poll does not hit the `!done` assertion and resolves `Ready(None)`
again, while any poll with `done` set panics on the assertion. -/
theorem pollPop_done_only_on_some (s : RbState T) (closed : Bool) :
    (∀ (x : T) s1 d, pollPop s closed false = some (Poll.ready (some x), s1, d) →
      d = true) ∧
    (∀ s1 d, pollPop s closed false = some (Poll.ready (none : Option T), s1, d) →
      d = false ∧ s1 = s ∧
        pollPop s1 closed d = some (Poll.ready (none : Option T), s1, false)) ∧
    pollPop s closed true = none := by
  refine ⟨?_, ?_, rfl⟩
  · intro x s1 d h
    unfold pollPop at h
    rcases hp : try_pop s with ⟨s2, it⟩
    rw [hp] at h
    rcases it with _ | y
    · rcases closed with _ | _ <;> simp_all
    · simp_all
  · intro s1 d h
    unfold pollPop at h
    rcases hp : try_pop s with ⟨s2, it⟩
    rw [hp] at h
    rcases it with _ | y
    · rcases closed with _ | _ <;> simp_all
      unfold pollPop
      rw [hp]
      simp
    · simp_all

/-- Witness for the done-flag theorem: a concrete closed empty buffer
where `Ready(None)` is returned twice without panicking. -/
theorem pollPop_done_only_on_some_witness :
    pollPop (initRb Nat 1) true false =
      some (Poll.ready (none : Option Nat), initRb Nat 1, false) ∧
    (false = false ∧ initRb Nat 1 = initRb Nat 1 ∧
      pollPop (initRb Nat 1) true false =
        some (Poll.ready (none : Option Nat), initRb Nat 1, false)) :=
  ⟨by decide,
    (pollPop_done_only_on_some (initRb Nat 1) true).2.1 (initRb Nat 1) false (by decide)⟩

/-- C6 counterexample: a freshly constructed (never polled) `PopFuture`
has `done = false`, yet when the producer side is closed its
`is_terminated` is `done || is_closed() = true`, contradicting the
claim that an unpolled future reports non-terminated regardless of the
closed flag. -/
theorem popFuture_fresh_terminated_when_closed :
    popTerminated false true = true := rfl

/-- C6 amended: after any single poll, each future's `is_terminated`
agrees with whether that poll returned `Ready` — except the wait
futures, whose `done` flag is never written and which therefore never
report terminated even after `Ready`; and on fresh (unpolled) futures
`PushFuture`/`PushSliceFuture` report non-terminated while `PopFuture`
and `PushIterFuture` already report terminated whenever the opposite
side is closed. -/
theorem fused_terminated_characterization (s : RbState T) (closed : Bool)
    (item : T) (slice iter : List T) (count n : Nat) :
    pushTerminated (pollPush s closed item).2.2 =
      (pollPush s closed item).1.isReady ∧
    pushSliceTerminated (pollPushSlice s closed slice count).2.2.1 =
      (pollPushSlice s closed slice count).1.isReady ∧
    pushIterTerminated (pollPushIter s closed iter).2.2 closed =
      (pollPushIter s closed iter).1.isReady ∧
    (∀ r s1 d, pollPop s closed false = some (r, s1, d) →
      popTerminated d closed = r.isReady) ∧
    (∀ r d, pollWaitVacant s closed n false = some (r, d) →
      waitTerminated d = false) ∧
    (∀ r d, pollWaitOccupied s closed n false = some (r, d) →
      waitTerminated d = false) ∧
    pushTerminated (some item) = false ∧
    pushSliceTerminated (some slice) = false ∧
    popTerminated false closed = closed ∧
    pushIterTerminated (some iter) closed = closed ∧
    waitTerminated false = false := by
  refine ⟨?_, ?_, ?_, ?_, ?_, ?_, rfl, rfl, by simp [popTerminated],
    by simp [pushIterTerminated], rfl⟩
  · rcases closed with _ | _
    · rcases hp : push s item with ⟨s1, it⟩
      cases it <;> simp [pollPush, hp, pushTerminated, Poll.isReady]
    · simp [pollPush, pushTerminated, Poll.isReady]
  · rcases closed with _ | _
    · rcases he : (slice.drop (push_slice s slice).2).isEmpty <;>
        simp [pollPushSlice, he, pushSliceTerminated, Poll.isReady]
    · simp [pollPushSlice, pushSliceTerminated, Poll.isReady]
  · rcases closed with _ | _
    · rcases he : (iter.drop (push_iter s iter).2).isEmpty <;>
        simp [pollPushIter, he, pushIterTerminated, Poll.isReady]
    · simp [pollPushIter, pushIterTerminated, Poll.isReady]
  · intro r s1 d h
    unfold pollPop at h
    rcases hp : try_pop s with ⟨s2, it⟩
    rw [hp] at h
    rcases it with _ | y
    · rcases closed with _ | _ <;>
        simp_all [popTerminated, Poll.isReady] <;>
        (obtain ⟨h1, h2, h3⟩ := h; subst h1; rfl)
    · simp_all [popTerminated, Poll.isReady]
      obtain ⟨h1, h2, h3⟩ := h
      subst h1
      rfl
  · intro r d h
    unfold pollWaitVacant at h
    split at h
    · cases h
    · split at h <;> simp_all [waitTerminated]
  · intro r d h
    unfold pollWaitOccupied at h
    split at h
    · cases h
    · split at h <;> simp_all [waitTerminated]

/-- Witness for the terminated characterization at concrete inputs. -/
theorem fused_terminated_characterization_witness :
    popTerminated false true =
      (Poll.ready (none : Option Nat)).isReady ∧
    waitTerminated false = false :=
  ⟨(fused_terminated_characterization (initRb Nat 1) true 0 [] [] 0 0).2.2.2.1
      (Poll.ready none) (initRb Nat 1) false (by decide),
    (fused_terminated_characterization (initRb Nat 1) true 0 [] [] 0 0).2.2.2.2.1
      (Poll.ready ()) false (by decide)⟩

/-- C7: `wait_vacant(k)` / `wait_occupied(k)` construction only
`debug_assert!`s the bound, so with debug assertions enabled a count
above the capacity panics at construction, but in a release build the
same call constructs the future without panicking — contradicting the
spec and the function's own documentation, which promise an
unconditional panic. -/
theorem waitFutureNew_panics_only_in_debug :
    waitFutureNew true 2 3 = none ∧
    waitFutureNew false 2 3 = some (3, false) := by
  decide

/-!
Blocking adapter (`blocking/src/sync.rs`).

`StdSemaphore::take` is a loop around a condition variable.  It is
embedded as a pure function of the environment trace it observes while
holding the mutex: per loop iteration, the elapsed time the
`TimeoutIterator` reads, whether a `give()` from the opposite thread set
the signal during this iteration's wait (the mutex is only released
during waits), and whether a timed wait reported a timeout.
-/

/-- One loop iteration's environment observations for `take`. -/
structure TakeEvent where
  elapsed : Nat
  signal : Bool
  timedOut : Bool
deriving DecidableEq, Repr

/-- Embeds `TimeoutIterator::next` from `blocking/src/sync.rs`
(durations as naturals): with a finite timeout it yields the remaining
slice while any remains and ends otherwise; with no timeout it yields
`Some(None)` forever. -/
def timeoutIterNext (timeout : Option Nat) (elapsed : Nat) : Option (Option Nat) :=
  match timeout with
  | some dur => if elapsed < dur then some (some (dur - elapsed)) else none
  | none => some none

/-- Embeds `StdSemaphore::take`.  `guard` is the mutex-protected
boolean; `ever` is a ghost monitor recording whether the signal was set
at any point up to now (it does not influence control flow).  The result
is `none` while the trace is too short for the call to return, otherwise
`(returned value, monitor at return, stored signal after return)`: the
loop head first asks the timeout iterator (an exhausted iterator ends
the loop, and the final `replace` returns the current guard and clears
it), then a pending signal is consumed and returns `true`, and otherwise
the call waits — a timed-out wait breaks to the final `replace`. -/
def semTake (timeout : Option Nat) : Bool → Bool → List TakeEvent →
    Option (Bool × Bool × Bool)
  | _, _, [] => none
  | guard, ever, e :: rest =>
    match timeoutIterNext timeout e.elapsed with
    | none => some (guard, ever, false)
    | some t =>
      if guard then
        some (true, ever, false)
      else
        match t with
        | some _ =>
          if e.timedOut then
            some (e.signal, ever || e.signal, false)
          else
            semTake timeout e.signal (ever || e.signal) rest
        | none => semTake timeout e.signal (ever || e.signal) rest

/-- Auxiliary induction for `take`: starting with the monitor equal to
the stored signal, a returning run returns exactly the monitor value,
clears the stored signal, and cannot return `false` without a finite
timeout. -/
theorem semTake_aux (timeout : Option Nat) (evs : List TakeEvent) :
    ∀ guard res ever fin, semTake timeout guard guard evs = some (res, ever, fin) →
      res = ever ∧ fin = false ∧ (timeout = none → res = true) := by
  induction evs with
  | nil =>
    intro guard res ever fin h
    cases h
  | cons e rest ih =>
    intro guard res ever fin h
    unfold semTake at h
    rcases ht : timeoutIterNext timeout e.elapsed with _ | t
    · rw [ht] at h
      simp only [Option.some.injEq, Prod.mk.injEq] at h
      obtain ⟨r1, r2, r3⟩ := h
      refine ⟨r1.symm.trans r2, r3.symm, ?_⟩
      intro hnone
      rw [hnone] at ht
      cases ht
    · rw [ht] at h
      by_cases hg : guard = true
      · rw [hg] at h
        simp only [if_true, Option.some.injEq, Prod.mk.injEq] at h
        obtain ⟨r1, r2, r3⟩ := h
        exact ⟨r1.symm.trans r2, r3.symm, fun _ => r1.symm⟩
      · have hgf : guard = false := by simpa using hg
        subst hgf
        simp only [Bool.false_eq_true, if_false, Bool.false_or] at h
        rcases t with _ | dt
        · exact ih e.signal res ever fin h
        · rcases htd : e.timedOut with _ | _
          · rw [htd] at h
            simp only [Bool.false_eq_true, if_false] at h
            exact ih e.signal res ever fin h
          · rw [htd] at h
            simp only [if_true, Option.some.injEq, Prod.mk.injEq] at h
            obtain ⟨r1, r2, r3⟩ := h
            refine ⟨r1.symm.trans r2, r3.symm, ?_⟩
            intro hnone
            rw [hnone] at ht
            cases ht

/-- C8: a returning `take` returns `true` exactly when the signal was
set at some point before the return (initial value or a `give` during
one of the performed waits, as recorded by the ghost monitor), the
stored signal is cleared on return, and with `timeout == None` the call
never returns `false`. -/
theorem semTake_spec (timeout : Option Nat) (guard : Bool) (evs : List TakeEvent)
    (res ever fin : Bool)
    (h : semTake timeout guard guard evs = some (res, ever, fin)) :
    res = ever ∧ fin = false ∧ (timeout = none → res = true) :=
  semTake_aux timeout evs guard res ever fin h

/-- Witness for the semaphore theorem: a wait that times out right after
the signal arrives still returns `true` with the signal cleared. -/
theorem semTake_spec_witness :
    true = true ∧ false = false ∧ ((some 5 : Option Nat) = none → true = true) :=
  semTake_spec (some 5) false [⟨0, true, true⟩] true true false (by decide)

end RingBuf
